import Mathlib

/-!
Shallow embedding of `taskfile/ast/include.go`: the `Include` record, the
insertion-ordered `Includes` registry built on `orderedmap.OrderedMap`, their
YAML decoders (`UnmarshalYAML`) and `Include.DeepCopy`.

Go pointers to records are modelled as `Option`: `none` is a nil pointer.
Methods that mutate through a pointer receiver are modelled by returning the
updated state alongside the Go return value.
-/

set_option autoImplicit false

namespace TaskAst

/-- Modelled from the spec: the `Vars` collaborator type is not part of the
visible source; per the spec it is an "optional mapping of variable name →
value expression". Absence (`nil *Vars`) is modelled as `none` at use sites. -/
structure Vars where
  entries : List (String × String)
deriving DecidableEq, Repr

/-- Modelled from the spec: `Vars.DeepCopy` "cloned via its own deep-copy
contract", with "nil-in/nil-out at every level"; in a value-semantics model a
clone carries the same entries. Takes and returns a `*Vars` (`Option Vars`). -/
def Vars.DeepCopy : Option Vars → Option Vars
  | none => none
  | some v => some ⟨v.entries⟩

/-- The decode tree produced by the upstream YAML parser (`yaml.Node`):
scalars, mappings (ordered key/value pairs, keys read off via
`keyNode.Value`), sequences, and any other node kind. -/
inductive YamlNode where
  | scalar (value : String)
  | mapping (content : List (String × YamlNode))
  | sequence (items : List YamlNode)
  | other
deriving Inhabited

/-- `errors.TaskfileDecodeError`: carries an optional type message (set by
`WithTypeMessage`) and an optional wrapped cause. The offending node carried
by the Go error is diagnostic metadata and is not modelled. -/
inductive TaskfileDecodeError where
  | mk (typeMessage : Option String) (cause : Option TaskfileDecodeError)

/-- `errors.NewTaskfileDecodeError(err, node)`: wraps a cause, no type message. -/
def NewTaskfileDecodeError (cause : Option TaskfileDecodeError) : TaskfileDecodeError :=
  .mk none cause

/-- `(*TaskfileDecodeError).WithTypeMessage`: sets the type message. -/
def TaskfileDecodeError.WithTypeMessage : TaskfileDecodeError → String → TaskfileDecodeError
  | .mk _ cause, s => .mk (some s) cause

/-- The type message of an error, used to recognise a "type mismatch" error
naming a construct. -/
def TaskfileDecodeError.typeMessage : TaskfileDecodeError → Option String
  | .mk t _ => t

/-- The wrapped cause of an error. -/
def TaskfileDecodeError.cause : TaskfileDecodeError → Option TaskfileDecodeError
  | .mk _ c => c

/-- The `Include` struct: information about one included taskfile. The Go
`[]string` slice `Aliases` is a `List String` (nil slice = `[]`); the
`*Vars` field is an `Option Vars`. -/
structure Include where
  Namespace : String
  Taskfile : String
  Dir : String
  Optional : Bool
  Internal : Bool
  Aliases : List String
  AdvancedImport : Bool
  Vars : Option Vars
  Flatten : Bool
deriving DecidableEq, Repr

/-- The zero value `Include{}` of the struct. -/
def Include.default : Include :=
  { Namespace := "", Taskfile := "", Dir := "", Optional := false, Internal := false
    Aliases := [], AdvancedImport := false, Vars := none, Flatten := false }

/-- `(*Include).DeepCopy`. The struct literal in the source initialises
`Namespace`, `Taskfile`, `Dir`, `Optional`, `Internal`, `AdvancedImport`,
`Vars` and `Flatten` but has no `Aliases` line, so the copy's `Aliases` is the
zero value (nil slice, modelled `[]`). A nil receiver returns nil. -/
def Include.DeepCopy : Option Include → Option Include
  | none => none
  | some inc => some
      { Namespace := inc.Namespace
        Taskfile := inc.Taskfile
        Dir := inc.Dir
        Optional := inc.Optional
        Internal := inc.Internal
        Aliases := []
        AdvancedImport := inc.AdvancedImport
        Vars := Vars.DeepCopy inc.Vars
        Flatten := inc.Flatten }

/-! ### The ordered map (`elliotchance/orderedmap/v2`)

Modelled as an association list in insertion order: `Set` on a present key
updates the value in place and returns `false`, on an absent key appends and
returns `true`; `Get` returns the stored value; iteration walks the list. -/

/-- `OrderedMap.Set`: returns (newly-inserted?, updated map). -/
def omSet (m : List (String × Include)) (key : String) (value : Include) :
    Bool × List (String × Include) :=
  if m.any (fun p => p.1 = key) then
    (false, m.map (fun p => if p.1 = key then (key, value) else p))
  else
    (true, m ++ [(key, value)])

/-- `OrderedMap.Get`: the stored value for a key, if present. -/
def omGet (m : List (String × Include)) (key : String) : Option Include :=
  (m.find? (fun p => p.1 = key)).map (fun p => p.2)

/-- The `Includes` struct: wraps a possibly-nil pointer to the ordered map. -/
structure Includes where
  om : Option (List (String × Include))

/-- `NewIncludes()` with no elements: an initialised, empty ordered map.
(The Go variadic version folds `Set` over its arguments.) -/
def NewIncludes : Includes := ⟨some []⟩

/-- `(*Includes).Len`: 0 when the pointer or the map is nil. -/
def Includes.Len : Option Includes → Nat
  | none => 0
  | some ⟨none⟩ => 0
  | some ⟨some m⟩ => m.length

/-- `(*Includes).Get`: on a nil pointer or nil map returns `(&Include{}, false)`;
otherwise delegates to the ordered map, whose miss returns the zero value of
`*Include`, i.e. a nil pointer (`none`). -/
def Includes.Get : Option Includes → String → Option Include × Bool
  | none, _ => (some Include.default, false)
  | some ⟨none⟩, _ => (some Include.default, false)
  | some ⟨some m⟩, key =>
      match omGet m key with
      | some v => (some v, true)
      | none => (none, false)

/-- `(*Includes).Set`: returns (newly-inserted?, state seen through the
caller's pointer). On a nil receiver the source rebinds the local `includes`
to `NewIncludes()`; `om.Set` on that fresh empty map returns `true`, and the
caller's nil pointer is unchanged. On a nil map the map is lazily
initialised in place. -/
def Includes.Set : Option Includes → String → Include → Bool × Option Includes
  | none, key, value =>
      ((omSet (match NewIncludes.om with | none => [] | some m => m) key value).1, none)
  | some ⟨om⟩, key, value =>
      let m := match om with | none => [] | some m => m
      let r := omSet m key value
      (r.1, some ⟨some r.2⟩)

/-- `(*Includes).All`: the iteration sequence, empty on a nil pointer or nil
map, otherwise the map's key/value pairs in insertion order. -/
def Includes.All : Option Includes → List (String × Include)
  | none => []
  | some ⟨none⟩ => []
  | some ⟨some m⟩ => m

/-- Modelled from the spec: `internal/sort.Sorter` is not part of the visible
source; it is the "ordering policy parameter accepted for future
extensibility" whose value the baseline behaviour ignores. -/
structure Sorter where

/-- `(*Includes).Keys`: projects `All()`; the sorter argument is unused. -/
def Includes.Keys (includesPtr : Option Includes) (_sorter : Sorter) : List String :=
  (Includes.All includesPtr).map (fun p => p.1)

/-- `(*Includes).Values`: projects `All()`; the sorter argument is unused. -/
def Includes.Values (includesPtr : Option Includes) (_sorter : Sorter) : List Include :=
  (Includes.All includesPtr).map (fun p => p.2)

/-! ### YAML decoding -/

/-- `node.Decode(&str)` for a `string` target: a scalar node yields its string
value (this never fails for a scalar in `yaml.v3`); any other node kind is a
yaml type error, modelled as an anonymous decode error. -/
def decodeString : YamlNode → Except TaskfileDecodeError String
  | .scalar s => .ok s
  | _ => .error (.mk none none)

/-- yaml decoding of a `bool` field: a scalar `true`/`false` (case variants
omitted; no claim depends on them); anything else fails. -/
def decodeBool : YamlNode → Except TaskfileDecodeError Bool
  | .scalar "true" => .ok true
  | .scalar "false" => .ok false
  | _ => .error (.mk none none)

/-- yaml decoding of a `[]string` field: a sequence of scalars. -/
def decodeStringList : YamlNode → Except TaskfileDecodeError (List String)
  | .sequence items => items.mapM decodeString
  | _ => .error (.mk none none)

/-- Modelled from the spec: decoding the external `Vars` collaborator, an
"optional mapping of variable name → value expression"; a mapping of scalar
values succeeds, anything else is a nested decode failure. -/
def decodeVars : YamlNode → Except TaskfileDecodeError Vars
  | .mapping content => do
      let entries ← content.mapM (fun kv => do
        let s ← decodeString kv.2
        pure (kv.1, s))
      pure ⟨entries⟩
  | _ => .error (.mk none none)

/-- The anonymous struct `includedTaskfile` that the mapping form of
`(*Include).UnmarshalYAML` decodes into; every field starts at its zero value. -/
structure IncludedTaskfileFields where
  Taskfile : String := ""
  Dir : String := ""
  Optional : Bool := false
  Internal : Bool := false
  Flatten : Bool := false
  Aliases : List String := []
  Vars : Option Vars := none
deriving Repr

/-- One step of yaml struct decoding: match a mapping key against the
(lower-cased) field names of `includedTaskfile`, decode the value into that
field; unknown keys are ignored (`yaml.v3` default). -/
def setField (f : IncludedTaskfileFields) (key : String) (node : YamlNode) :
    Except TaskfileDecodeError IncludedTaskfileFields :=
  if key = "taskfile" then (decodeString node).map fun s => { f with Taskfile := s }
  else if key = "dir" then (decodeString node).map fun s => { f with Dir := s }
  else if key = "optional" then (decodeBool node).map fun b => { f with Optional := b }
  else if key = "internal" then (decodeBool node).map fun b => { f with Internal := b }
  else if key = "flatten" then (decodeBool node).map fun b => { f with Flatten := b }
  else if key = "aliases" then (decodeStringList node).map fun l => { f with Aliases := l }
  else if key = "vars" then (decodeVars node).map fun v => { f with Vars := some v }
  else .ok f

/-- `node.Decode(&includedTaskfile)`: fold the mapping's entries over the
zero-valued struct. -/
def decodeIncludedTaskfile (content : List (String × YamlNode)) :
    Except TaskfileDecodeError IncludedTaskfileFields :=
  content.foldlM (fun f kv => setField f kv.1 kv.2) {}

/-- `(*Include).UnmarshalYAML`: scalar nodes set `Taskfile`; mapping nodes
decode the anonymous struct and copy its fields, setting
`AdvancedImport = true`; any other kind fails with the type message
"include". The receiver's prior fields are kept where the source does not
assign them. -/
def Include.UnmarshalYAML (inc : Include) (node : YamlNode) :
    Except TaskfileDecodeError Include :=
  match node with
  | .scalar s => .ok { inc with Taskfile := s }
  | .mapping content =>
      match decodeIncludedTaskfile content with
      | .error e => .error (NewTaskfileDecodeError (some e))
      | .ok f => .ok
          { inc with
            Taskfile := f.Taskfile
            Dir := f.Dir
            Optional := f.Optional
            Internal := f.Internal
            Aliases := f.Aliases
            AdvancedImport := true
            Vars := f.Vars
            Flatten := f.Flatten }
  | _ => .error ((NewTaskfileDecodeError none).WithTypeMessage "include")

/-- The loop body of `(*Includes).UnmarshalYAML` over the mapping's
key/value pairs: decode each value into a fresh `Include` (`var v Include`),
on failure return the error wrapped in a `TaskfileDecodeError` keeping the
registry state reached so far; on success stamp `Namespace` from the key and
`Set` the pair. -/
def decodeEntries (st : Option Includes) :
    List (String × YamlNode) →
      Except TaskfileDecodeError Unit × Option Includes
  | [] => (.ok (), st)
  | (key, valueNode) :: rest =>
      match Include.UnmarshalYAML Include.default valueNode with
      | .error e => (.error (NewTaskfileDecodeError (some e)), st)
      | .ok v => decodeEntries (Includes.Set st key { v with Namespace := key }).2 rest

/-- `(*Includes).UnmarshalYAML`: a mapping node is decoded entry by entry;
any other kind fails with the type message "includes". -/
def Includes.UnmarshalYAML (st : Option Includes) (node : YamlNode) :
    Except TaskfileDecodeError Unit × Option Includes :=
  match node with
  | .mapping content => decodeEntries st content
  | _ => (.error ((NewTaskfileDecodeError none).WithTypeMessage "includes"), st)

/-! ### Specification-side helpers for stating ordering properties -/

/-- Applying a sequence of `Set` calls to a registry, in order. -/
def applySets (st : Option Includes) (ops : List (String × Include)) : Option Includes :=
  ops.foldl (fun s op => (Includes.Set s op.1 op.2).2) st

/-- Accumulate a key at the back unless it is already present. -/
def insertKey (acc : List String) (k : String) : List String :=
  if k ∈ acc then acc else acc ++ [k]

/-- The keys of a list in order of first occurrence. -/
def firstOccur (l : List String) : List String :=
  l.foldl insertKey []

/-- The pure fold of `omSet` underlying `applySets` on an initialised registry. -/
def omFold (m : List (String × Include)) (ops : List (String × Include)) :
    List (String × Include) :=
  ops.foldl (fun m op => (omSet m op.1 op.2).2) m

/-- The pure all-entries-decode-successfully fold underlying `decodeEntries`:
`none` when some entry's value fails to decode, otherwise the final ordered
map contents. -/
def decodedMap (m : List (String × Include)) :
    List (String × YamlNode) → Option (List (String × Include))
  | [] => some m
  | (key, valueNode) :: rest =>
      match Include.UnmarshalYAML Include.default valueNode with
      | .error _ => none
      | .ok v => decodedMap (omSet m key { v with Namespace := key }).2 rest

/-! ### Concrete sample data, used to instantiate the general theorems -/

/-- A sample record: a shorthand include of `./a.yml`. -/
def exInclude1 : Include := { Include.default with Taskfile := "./a.yml" }

/-- A sample record: an internal include of `./b.yml`. -/
def exInclude2 : Include := { Include.default with Taskfile := "./b.yml", Internal := true }

/-- A sample record: a shorthand include of `./c.yml`. -/
def exInclude3 : Include := { Include.default with Taskfile := "./c.yml" }

/-- A sample `Set` history that revisits the key "a". -/
def exOps : List (String × Include) := [("a", exInclude1), ("b", exInclude2), ("a", exInclude3)]

/-- The spec's registry example: `{a: "./a.yml", b: {taskfile: "./b.yml", internal: true}}`. -/
def exContent : List (String × YamlNode) :=
  [("a", .scalar "./a.yml"),
   ("b", .mapping [("taskfile", .scalar "./b.yml"), ("internal", .scalar "true")])]

/-- The mapping body of the example's "b" entry. -/
def exContent2 : List (String × YamlNode) :=
  [("taskfile", .scalar "./b.yml"), ("internal", .scalar "true")]

/-- The anonymous-struct value decoded from `exContent2`. -/
def exFields2 : IncludedTaskfileFields := { Taskfile := "./b.yml", Internal := true }

/-- A one-entry prefix of mapping entries that decodes successfully. -/
def exGood : List (String × YamlNode) := [("a", YamlNode.scalar "./a.yml")]

/-! ### Lemmas about the ordered map -/

theorem any_fst_iff (m : List (String × Include)) (key : String) :
    m.any (fun p => p.1 = key) = true ↔ key ∈ m.map Prod.fst := by
  rw [List.any_eq_true]
  constructor
  · rintro ⟨p, hp, hdec⟩
    have hpk : p.1 = key := by simpa using hdec
    exact List.mem_map.2 ⟨p, hp, hpk⟩
  · intro hm
    rcases List.mem_map.1 hm with ⟨p, hp, he⟩
    exact ⟨p, hp, by simp [he]⟩

theorem omSet_of_not_mem (m : List (String × Include)) (key : String) (value : Include)
    (h : key ∉ m.map Prod.fst) :
    omSet m key value = (true, m ++ [(key, value)]) := by
  have hany : m.any (fun p => p.1 = key) = false := by
    rw [← Bool.not_eq_true, any_fst_iff]; exact h
  unfold omSet
  rw [hany]
  simp

theorem map_fst_update (m : List (String × Include)) (key : String) (value : Include) :
    (m.map (fun p => if p.1 = key then (key, value) else p)).map Prod.fst =
      m.map Prod.fst := by
  induction m with
  | nil => rfl
  | cons p rest ih =>
    by_cases h : p.1 = key <;> simp [h, ih]

theorem omSet_of_mem (m : List (String × Include)) (key : String) (value : Include)
    (h : key ∈ m.map Prod.fst) :
    (omSet m key value).1 = false ∧
    (omSet m key value).2 = m.map (fun p => if p.1 = key then (key, value) else p) := by
  have hany : m.any (fun p => p.1 = key) = true := (any_fst_iff m key).2 h
  simp [omSet, hany]

theorem omSet_map_fst (m : List (String × Include)) (key : String) (value : Include) :
    (omSet m key value).2.map Prod.fst = insertKey (m.map Prod.fst) key := by
  by_cases h : key ∈ m.map Prod.fst
  · rw [(omSet_of_mem m key value h).2, map_fst_update, insertKey, if_pos h]
  · rw [omSet_of_not_mem m key value h, insertKey, if_neg h]
    simp

theorem omGet_update_self (m : List (String × Include)) (key : String) (value : Include)
    (h : key ∈ m.map Prod.fst) :
    omGet (m.map (fun p => if p.1 = key then (key, value) else p)) key = some value := by
  induction m with
  | nil => cases h
  | cons p rest ih =>
    by_cases hp : p.1 = key
    · simp [omGet, List.find?, hp]
    · have h' : key ∈ rest.map Prod.fst := by
        rw [List.map_cons, List.mem_cons] at h
        rcases h with h1 | h1
        · exact absurd h1.symm hp
        · exact h1
      simpa [omGet, List.find?, hp] using ih h'

theorem omGet_append_right (m l2 : List (String × Include)) (key : String)
    (h : key ∉ m.map Prod.fst) :
    omGet (m ++ l2) key = omGet l2 key := by
  induction m with
  | nil => rfl
  | cons p rest ih =>
    have hp : ¬ p.1 = key := fun e => h (by simp [e])
    have h' : key ∉ rest.map Prod.fst := fun hm => h (by simp [hm])
    simpa [omGet, List.find?, hp] using ih h'

theorem omGet_omSet_self (m : List (String × Include)) (key : String) (value : Include) :
    omGet (omSet m key value).2 key = some value := by
  by_cases h : key ∈ m.map Prod.fst
  · rw [(omSet_of_mem m key value h).2]
    exact omGet_update_self m key value h
  · rw [omSet_of_not_mem m key value h]
    rw [omGet_append_right m [(key, value)] key h]
    simp [omGet, List.find?]

theorem omSet_mem_elts (m : List (String × Include)) (key : String) (value : Include)
    (p : String × Include) (h : p ∈ (omSet m key value).2) :
    p ∈ m ∨ p = (key, value) := by
  by_cases hk : key ∈ m.map Prod.fst
  · rw [(omSet_of_mem m key value hk).2] at h
    rcases List.mem_map.1 h with ⟨q, hq, rfl⟩
    by_cases hq1 : q.1 = key
    · right; simp [hq1]
    · left; simpa [hq1] using hq
  · rw [omSet_of_not_mem m key value hk] at h
    rcases List.mem_append.1 h with h1 | h1
    · exact Or.inl h1
    · exact Or.inr (by simpa using h1)

theorem omGet_mem (m : List (String × Include)) (key : String)
    (h : key ∈ m.map Prod.fst) :
    ∃ v, omGet m key = some v ∧ (key, v) ∈ m := by
  induction m with
  | nil => cases h
  | cons p rest ih =>
    by_cases hp : p.1 = key
    · subst hp
      exact ⟨p.2, by simp [omGet, List.find?], by rw [Prod.mk.eta]; exact List.mem_cons_self _ _⟩
    · have h' : key ∈ rest.map Prod.fst := by
        rw [List.map_cons, List.mem_cons] at h
        rcases h with h1 | h1
        · exact absurd h1.symm hp
        · exact h1
      rcases ih h' with ⟨v, hget, hmem⟩
      exact ⟨v, by simpa [omGet, List.find?, hp] using hget, List.mem_cons_of_mem _ hmem⟩

theorem insertKey_mem (acc : List String) (a k : String) :
    k ∈ insertKey acc a ↔ k ∈ acc ∨ k = a := by
  unfold insertKey
  by_cases h : a ∈ acc
  · simp only [if_pos h]
    constructor
    · exact Or.inl
    · rintro (hk | rfl)
      · exact hk
      · exact h
  · simp [if_neg h]

theorem foldl_insertKey_mem (l : List String) (acc : List String) (k : String) :
    k ∈ l.foldl insertKey acc ↔ k ∈ acc ∨ k ∈ l := by
  induction l generalizing acc with
  | nil => simp
  | cons a rest ih =>
    rw [List.foldl_cons, ih, insertKey_mem]
    simp [or_assoc]

theorem foldl_insertKey_nodup (l : List String) (acc : List String)
    (hn : l.Nodup) (hd : ∀ x ∈ l, x ∉ acc) :
    l.foldl insertKey acc = acc ++ l := by
  induction l generalizing acc with
  | nil => simp
  | cons a rest ih =>
    rw [List.foldl_cons]
    have ha : a ∉ acc := hd a (by simp)
    have hins : insertKey acc a = acc ++ [a] := by rw [insertKey, if_neg ha]
    have hd' : ∀ x ∈ rest, x ∉ acc ++ [a] := by
      intro x hx hmem
      rcases List.mem_append.1 hmem with h1 | h1
      · exact hd x (List.mem_cons_of_mem _ hx) h1
      · have hxa : x = a := by simpa using h1
        exact (List.nodup_cons.1 hn).1 (hxa ▸ hx)
    rw [hins, ih (acc ++ [a]) (List.nodup_cons.1 hn).2 hd']
    simp

/-! ### Lemmas about `Except` -/

theorem exceptMapOk {ε α β : Type} (g : α → β) (e : Except ε α) (b : β)
    (h : e.map g = .ok b) : ∃ a, e = .ok a ∧ b = g a := by
  cases e with
  | error err => exact Except.noConfusion h
  | ok a =>
    refine ⟨a, rfl, ?_⟩
    have hab : Except.ok (ε := ε) (g a) = .ok b := h
    injection hab with hab
    exact hab.symm

theorem exceptBindOk {ε α β : Type} (e : Except ε α) (g : α → Except ε β) (b : β)
    (h : e >>= g = .ok b) : ∃ a, e = .ok a ∧ g a = .ok b := by
  cases e with
  | error err =>
    have hh : Except.error (α := β) err = .ok b := h
    exact Except.noConfusion hh
  | ok a => exact ⟨a, rfl, h⟩

/-! ### Unfolding equations and state lemmas for the registry decoders -/

theorem Set_some (m : List (String × Include)) (key : String) (value : Include) :
    Includes.Set (some ⟨some m⟩) key value =
      ((omSet m key value).1, some ⟨some (omSet m key value).2⟩) := rfl

theorem decodeEntries_cons (st : Option Includes) (key : String) (valueNode : YamlNode)
    (rest : List (String × YamlNode)) :
    decodeEntries st ((key, valueNode) :: rest) =
      match Include.UnmarshalYAML Include.default valueNode with
      | .error e => (.error (NewTaskfileDecodeError (some e)), st)
      | .ok v => decodeEntries (Includes.Set st key { v with Namespace := key }).2 rest := rfl

theorem decodedMap_cons (m : List (String × Include)) (key : String) (valueNode : YamlNode)
    (rest : List (String × YamlNode)) :
    decodedMap m ((key, valueNode) :: rest) =
      match Include.UnmarshalYAML Include.default valueNode with
      | .error _ => none
      | .ok v => decodedMap (omSet m key { v with Namespace := key }).2 rest := rfl

theorem decodeEntries_state_ok (content : List (String × YamlNode)) :
    ∀ m m' : List (String × Include), decodedMap m content = some m' →
      decodeEntries (some ⟨some m⟩) content = (.ok (), some ⟨some m'⟩) := by
  induction content with
  | nil =>
    intro m m' h
    injection h with h
    rw [← h]
    rfl
  | cons kv rest ih =>
    intro m m' h
    obtain ⟨key, vn⟩ := kv
    rw [decodedMap_cons] at h
    rw [decodeEntries_cons]
    cases hd : Include.UnmarshalYAML Include.default vn with
    | error e => rw [hd] at h; exact Option.noConfusion h
    | ok v =>
      rw [hd] at h
      exact ih _ _ h

theorem decodeEntries_error_typeMessage (content : List (String × YamlNode)) :
    ∀ (st : Option Includes) (e : TaskfileDecodeError),
      (decodeEntries st content).1 = .error e → e.typeMessage = none := by
  induction content with
  | nil =>
    intro st e h
    exact Except.noConfusion (show Except.ok (ε := TaskfileDecodeError) () = .error e from h)
  | cons kv rest ih =>
    intro st e h
    obtain ⟨key, vn⟩ := kv
    rw [decodeEntries_cons] at h
    cases hd : Include.UnmarshalYAML Include.default vn with
    | error e' =>
      rw [hd] at h
      have hh : Except.error (α := Unit) (NewTaskfileDecodeError (some e')) = .error e := h
      injection hh with hh
      rw [← hh]
      rfl
    | ok v =>
      rw [hd] at h
      exact ih _ _ h

theorem decodedMap_total (content : List (String × YamlNode)) :
    ∀ m : List (String × Include),
      (∀ kv ∈ content, ∃ r, Include.UnmarshalYAML Include.default kv.2 = .ok r) →
      ∃ m', decodedMap m content = some m' := by
  induction content with
  | nil => intro m _; exact ⟨m, rfl⟩
  | cons kv rest ih =>
    intro m hall
    obtain ⟨key, vn⟩ := kv
    rcases hall (key, vn) (List.mem_cons_self _ _) with ⟨r, hr⟩
    rcases ih (omSet m key { r with Namespace := key }).2
        (fun kv hkv => hall kv (List.mem_cons_of_mem _ hkv)) with ⟨m', hm⟩
    refine ⟨m', ?_⟩
    rw [decodedMap_cons, hr]
    exact hm

theorem decodedMap_map_fst (content : List (String × YamlNode)) :
    ∀ m m' : List (String × Include), decodedMap m content = some m' →
      m'.map Prod.fst = (content.map Prod.fst).foldl insertKey (m.map Prod.fst) := by
  induction content with
  | nil =>
    intro m m' h
    injection h with h
    rw [← h]
    rfl
  | cons kv rest ih =>
    intro m m' h
    obtain ⟨key, vn⟩ := kv
    rw [decodedMap_cons] at h
    cases hd : Include.UnmarshalYAML Include.default vn with
    | error e => rw [hd] at h; exact Option.noConfusion h
    | ok v =>
      rw [hd] at h
      rw [List.map_cons, List.foldl_cons, ← omSet_map_fst m key { v with Namespace := key }]
      exact ih _ _ h

theorem decodedMap_namespace (content : List (String × YamlNode)) :
    ∀ m m' : List (String × Include), decodedMap m content = some m' →
      (∀ p ∈ m, p.2.Namespace = p.1) → ∀ p ∈ m', p.2.Namespace = p.1 := by
  induction content with
  | nil =>
    intro m m' h hm
    injection h with h
    rw [← h]
    exact hm
  | cons kv rest ih =>
    intro m m' h hm
    obtain ⟨key, vn⟩ := kv
    rw [decodedMap_cons] at h
    cases hd : Include.UnmarshalYAML Include.default vn with
    | error e => rw [hd] at h; exact Option.noConfusion h
    | ok v =>
      rw [hd] at h
      refine ih _ _ h ?_
      intro p hp
      rcases omSet_mem_elts _ _ _ p hp with h1 | h1
      · exact hm p h1
      · rw [h1]

theorem omFold_map_fst (ops : List (String × Include)) :
    ∀ m : List (String × Include),
      (omFold m ops).map Prod.fst = (ops.map Prod.fst).foldl insertKey (m.map Prod.fst) := by
  induction ops with
  | nil => intro m; rfl
  | cons op rest ih =>
    intro m
    rw [show omFold m (op :: rest) = omFold (omSet m op.1 op.2).2 rest from rfl]
    rw [ih, List.map_cons, List.foldl_cons, omSet_map_fst]

theorem applySets_eq (ops : List (String × Include)) :
    ∀ m : List (String × Include),
      applySets (some ⟨some m⟩) ops = some ⟨some (omFold m ops)⟩ := by
  induction ops with
  | nil => intro m; rfl
  | cons op rest ih =>
    intro m
    rw [show applySets (some ⟨some m⟩) (op :: rest) =
          applySets (some ⟨some (omSet m op.1 op.2).2⟩) rest from rfl]
    rw [ih]
    rfl

/-! ### Lemmas about the yaml struct decode of `includedTaskfile` -/

theorem setField_ne (f : IncludedTaskfileFields) (key : String) (node : YamlNode)
    (g : IncludedTaskfileFields) (h : setField f key node = .ok g) :
    (key ≠ "taskfile" → g.Taskfile = f.Taskfile) ∧
    (key ≠ "dir" → g.Dir = f.Dir) ∧
    (key ≠ "optional" → g.Optional = f.Optional) ∧
    (key ≠ "internal" → g.Internal = f.Internal) ∧
    (key ≠ "flatten" → g.Flatten = f.Flatten) ∧
    (key ≠ "aliases" → g.Aliases = f.Aliases) ∧
    (key ≠ "vars" → g.Vars = f.Vars) := by
  unfold setField at h
  split_ifs at h with h1 h2 h3 h4 h5 h6 h7
  · rcases exceptMapOk _ _ _ h with ⟨s, _, rfl⟩
    exact ⟨fun hk => absurd h1 hk, fun _ => rfl, fun _ => rfl, fun _ => rfl,
      fun _ => rfl, fun _ => rfl, fun _ => rfl⟩
  · rcases exceptMapOk _ _ _ h with ⟨s, _, rfl⟩
    exact ⟨fun _ => rfl, fun hk => absurd h2 hk, fun _ => rfl, fun _ => rfl,
      fun _ => rfl, fun _ => rfl, fun _ => rfl⟩
  · rcases exceptMapOk _ _ _ h with ⟨b, _, rfl⟩
    exact ⟨fun _ => rfl, fun _ => rfl, fun hk => absurd h3 hk, fun _ => rfl,
      fun _ => rfl, fun _ => rfl, fun _ => rfl⟩
  · rcases exceptMapOk _ _ _ h with ⟨b, _, rfl⟩
    exact ⟨fun _ => rfl, fun _ => rfl, fun _ => rfl, fun hk => absurd h4 hk,
      fun _ => rfl, fun _ => rfl, fun _ => rfl⟩
  · rcases exceptMapOk _ _ _ h with ⟨b, _, rfl⟩
    exact ⟨fun _ => rfl, fun _ => rfl, fun _ => rfl, fun _ => rfl,
      fun hk => absurd h5 hk, fun _ => rfl, fun _ => rfl⟩
  · rcases exceptMapOk _ _ _ h with ⟨l, _, rfl⟩
    exact ⟨fun _ => rfl, fun _ => rfl, fun _ => rfl, fun _ => rfl,
      fun _ => rfl, fun hk => absurd h6 hk, fun _ => rfl⟩
  · rcases exceptMapOk _ _ _ h with ⟨v, _, rfl⟩
    exact ⟨fun _ => rfl, fun _ => rfl, fun _ => rfl, fun _ => rfl,
      fun _ => rfl, fun _ => rfl, fun hk => absurd h7 hk⟩
  · injection h with h
    rw [← h]
    exact ⟨fun _ => rfl, fun _ => rfl, fun _ => rfl, fun _ => rfl,
      fun _ => rfl, fun _ => rfl, fun _ => rfl⟩

theorem decodeFold_preserve {α : Type} (proj : IncludedTaskfileFields → α) (keyname : String)
    (hproj : ∀ g k n g', setField g k n = .ok g' → k ≠ keyname → proj g' = proj g)
    (content : List (String × YamlNode)) :
    ∀ f0 f : IncludedTaskfileFields,
      content.foldlM (fun f kv => setField f kv.1 kv.2) f0 = .ok f →
      keyname ∉ content.map Prod.fst → proj f = proj f0 := by
  induction content with
  | nil =>
    intro f0 f h _
    have hh : Except.ok (ε := TaskfileDecodeError) f0 = .ok f := h
    injection hh with hh
    rw [← hh]
  | cons kv rest ih =>
    intro f0 f h hk
    rw [List.foldlM_cons] at h
    rcases exceptBindOk _ _ _ h with ⟨f1, h1, h2⟩
    have hne : kv.1 ≠ keyname := by
      intro e
      exact hk (e ▸ List.mem_map.2 ⟨kv, List.mem_cons_self _ _, rfl⟩)
    have hrest : keyname ∉ rest.map Prod.fst := by
      intro hm
      rcases List.mem_map.1 hm with ⟨p, hp, hpk⟩
      exact hk (List.mem_map.2 ⟨p, List.mem_cons_of_mem _ hp, hpk⟩)
    rw [ih f1 f h2 hrest]
    exact hproj f0 kv.1 kv.2 f1 h1 hne

theorem decodeFold_last {α : Type} (proj : IncludedTaskfileFields → α) (keyname : String)
    (hproj : ∀ g k n g', setField g k n = .ok g' → k ≠ keyname → proj g' = proj g)
    (pre post : List (String × YamlNode)) (n : YamlNode) (f0 f : IncludedTaskfileFields)
    (h : (pre ++ (keyname, n) :: post).foldlM (fun f kv => setField f kv.1 kv.2) f0 = .ok f)
    (hpost : keyname ∉ post.map Prod.fst) :
    ∃ g g', pre.foldlM (fun f kv => setField f kv.1 kv.2) f0 = .ok g ∧
      setField g keyname n = .ok g' ∧ proj f = proj g' := by
  rw [List.foldlM_append] at h
  rcases exceptBindOk _ _ _ h with ⟨g, hg, h2⟩
  rw [List.foldlM_cons] at h2
  rcases exceptBindOk _ _ _ h2 with ⟨g', hg', h3⟩
  exact ⟨g, g', hg, hg', decodeFold_preserve proj keyname hproj post g' f h3 hpost⟩

theorem setField_taskfile (f : IncludedTaskfileFields) (node : YamlNode)
    (g : IncludedTaskfileFields) (h : setField f "taskfile" node = .ok g) :
    ∃ s, decodeString node = .ok s ∧ g = { f with Taskfile := s } := by
  unfold setField at h
  rw [if_pos rfl] at h
  rcases exceptMapOk _ _ _ h with ⟨s, hs, rfl⟩
  exact ⟨s, hs, rfl⟩

theorem setField_dir (f : IncludedTaskfileFields) (node : YamlNode)
    (g : IncludedTaskfileFields) (h : setField f "dir" node = .ok g) :
    ∃ s, decodeString node = .ok s ∧ g = { f with Dir := s } := by
  unfold setField at h
  rw [if_neg (by decide), if_pos rfl] at h
  rcases exceptMapOk _ _ _ h with ⟨s, hs, rfl⟩
  exact ⟨s, hs, rfl⟩

theorem setField_optional (f : IncludedTaskfileFields) (node : YamlNode)
    (g : IncludedTaskfileFields) (h : setField f "optional" node = .ok g) :
    ∃ b, decodeBool node = .ok b ∧ g = { f with Optional := b } := by
  unfold setField at h
  rw [if_neg (by decide), if_neg (by decide), if_pos rfl] at h
  rcases exceptMapOk _ _ _ h with ⟨b, hb, rfl⟩
  exact ⟨b, hb, rfl⟩

theorem setField_internal (f : IncludedTaskfileFields) (node : YamlNode)
    (g : IncludedTaskfileFields) (h : setField f "internal" node = .ok g) :
    ∃ b, decodeBool node = .ok b ∧ g = { f with Internal := b } := by
  unfold setField at h
  rw [if_neg (by decide), if_neg (by decide), if_neg (by decide), if_pos rfl] at h
  rcases exceptMapOk _ _ _ h with ⟨b, hb, rfl⟩
  exact ⟨b, hb, rfl⟩

theorem setField_flatten (f : IncludedTaskfileFields) (node : YamlNode)
    (g : IncludedTaskfileFields) (h : setField f "flatten" node = .ok g) :
    ∃ b, decodeBool node = .ok b ∧ g = { f with Flatten := b } := by
  unfold setField at h
  rw [if_neg (by decide), if_neg (by decide), if_neg (by decide), if_neg (by decide),
    if_pos rfl] at h
  rcases exceptMapOk _ _ _ h with ⟨b, hb, rfl⟩
  exact ⟨b, hb, rfl⟩

theorem setField_aliases (f : IncludedTaskfileFields) (node : YamlNode)
    (g : IncludedTaskfileFields) (h : setField f "aliases" node = .ok g) :
    ∃ l, decodeStringList node = .ok l ∧ g = { f with Aliases := l } := by
  unfold setField at h
  rw [if_neg (by decide), if_neg (by decide), if_neg (by decide), if_neg (by decide),
    if_neg (by decide), if_pos rfl] at h
  rcases exceptMapOk _ _ _ h with ⟨l, hl, rfl⟩
  exact ⟨l, hl, rfl⟩

theorem setField_vars (f : IncludedTaskfileFields) (node : YamlNode)
    (g : IncludedTaskfileFields) (h : setField f "vars" node = .ok g) :
    ∃ v, decodeVars node = .ok v ∧ g = { f with Vars := some v } := by
  unfold setField at h
  rw [if_neg (by decide), if_neg (by decide), if_neg (by decide), if_neg (by decide),
    if_neg (by decide), if_neg (by decide), if_pos rfl] at h
  rcases exceptMapOk _ _ _ h with ⟨v, hv, rfl⟩
  exact ⟨v, hv, rfl⟩

theorem decodeEntries_append_ok (good : List (String × YamlNode)) :
    ∀ (m m' : List (String × Include)) (rest : List (String × YamlNode)),
      decodedMap m good = some m' →
      decodeEntries (some ⟨some m⟩) (good ++ rest) = decodeEntries (some ⟨some m'⟩) rest := by
  induction good with
  | nil =>
    intro m m' rest h
    injection h with h
    rw [← h]
    rfl
  | cons kv tail ih =>
    intro m m' rest h
    obtain ⟨key, vn⟩ := kv
    rw [decodedMap_cons] at h
    rw [List.cons_append, decodeEntries_cons]
    cases hd : Include.UnmarshalYAML Include.default vn with
    | error e => rw [hd] at h; exact Option.noConfusion h
    | ok v =>
      rw [hd] at h
      exact ih _ _ rest h

/-! ### Unfolding equations for the record decoder, and a `Get` helper -/

theorem Include_unmarshal_scalar (inc : Include) (s : String) :
    Include.UnmarshalYAML inc (.scalar s) = .ok { inc with Taskfile := s } := rfl

theorem Include_unmarshal_mapping (inc : Include) (content : List (String × YamlNode)) :
    Include.UnmarshalYAML inc (.mapping content) =
      match decodeIncludedTaskfile content with
      | .error e => .error (NewTaskfileDecodeError (some e))
      | .ok f => .ok
          { inc with
            Taskfile := f.Taskfile
            Dir := f.Dir
            Optional := f.Optional
            Internal := f.Internal
            Aliases := f.Aliases
            AdvancedImport := true
            Vars := f.Vars
            Flatten := f.Flatten } := rfl

theorem Include_unmarshal_sequence (inc : Include) (items : List YamlNode) :
    Include.UnmarshalYAML inc (.sequence items) =
      .error ((NewTaskfileDecodeError none).WithTypeMessage "include") := rfl

theorem Include_unmarshal_other (inc : Include) :
    Include.UnmarshalYAML inc .other =
      .error ((NewTaskfileDecodeError none).WithTypeMessage "include") := rfl

theorem Includes_unmarshal_mapping (st : Option Includes) (content : List (String × YamlNode)) :
    Includes.UnmarshalYAML st (.mapping content) = decodeEntries st content := rfl

theorem Get_some_of_omGet (m : List (String × Include)) (key : String) (v : Include)
    (h : omGet m key = some v) : Includes.Get (some ⟨some m⟩) key = (some v, true) := by
  show (match omGet m key with
        | some v => (some v, true)
        | none => (none, false)) = ((some v : Option Include), true)
  rw [h]

theorem decodeEntries_ok_decodedMap (content : List (String × YamlNode)) :
    ∀ m : List (String × Include),
      (decodeEntries (some ⟨some m⟩) content).1 = .ok () →
      ∃ m', decodedMap m content = some m' := by
  induction content with
  | nil => intro m _; exact ⟨m, rfl⟩
  | cons kv rest ih =>
    intro m h
    obtain ⟨key, vn⟩ := kv
    rw [decodeEntries_cons] at h
    cases hd : Include.UnmarshalYAML Include.default vn with
    | error e =>
      rw [hd] at h
      exact Except.noConfusion
        (show Except.error (α := Unit) (NewTaskfileDecodeError (some e)) = .ok () from h)
    | ok v =>
      rw [hd] at h
      rcases ih _ h with ⟨m', hm⟩
      refine ⟨m', ?_⟩
      rw [decodedMap_cons, hd]
      exact hm

/-! ### Claim theorems -/

/-- C1: evaluating `Include.DeepCopy` at a record whose `Aliases` is `["s"]`
shows the claim's failing input: the copy's `Aliases` is `[]` while the
original's is `["s"]`, because the struct literal in the source omits the
`Aliases` field; the other fields are copied as claimed. -/
theorem C1_deepCopy_drops_aliases :
    ∃ c, Include.DeepCopy
        (some { Include.default with Taskfile := "./sub/Taskfile.yml", Aliases := ["s"] }) =
        some c ∧
      c.Aliases = [] ∧
      ({ Include.default with Taskfile := "./sub/Taskfile.yml", Aliases := ["s"] } :
        Include).Aliases = ["s"] ∧
      c.Taskfile = "./sub/Taskfile.yml" :=
  ⟨_, rfl, rfl, rfl, rfl⟩

/-- C2 counterexample: decoding the plain empty-string scalar succeeds and
leaves `Taskfile` empty, refuting "Taskfile is a non-empty string after every
successful decode". -/
theorem C2_empty_scalar_decodes :
    ∃ r, Include.UnmarshalYAML Include.default (.scalar "") = .ok r ∧ r.Taskfile = "" :=
  ⟨_, rfl, rfl⟩

/-- C2 amended: after every successful decode of an Include record,
`Taskfile` equals the decoded input value — the scalar's string in scalar
form, the anonymous struct's (possibly empty) `Taskfile` in mapping form —
with no non-emptiness validation. -/
theorem C2_taskfile_copied_unvalidated (inc : Include) (node : YamlNode) (r : Include)
    (h : Include.UnmarshalYAML inc node = .ok r) :
    (∃ s, node = .scalar s ∧ r.Taskfile = s) ∨
    (∃ content f, node = .mapping content ∧ decodeIncludedTaskfile content = .ok f ∧
      r.Taskfile = f.Taskfile) := by
  cases node with
  | scalar s =>
    left
    refine ⟨s, rfl, ?_⟩
    rw [Include_unmarshal_scalar] at h
    injection h with h
    rw [← h]
  | mapping content =>
    right
    rw [Include_unmarshal_mapping] at h
    cases hd : decodeIncludedTaskfile content with
    | error e => rw [hd] at h; exact Except.noConfusion h
    | ok f =>
      rw [hd] at h
      injection h with h
      exact ⟨content, f, rfl, hd, by rw [← h]⟩
  | sequence items =>
    rw [Include_unmarshal_sequence] at h
    exact Except.noConfusion h
  | other =>
    rw [Include_unmarshal_other] at h
    exact Except.noConfusion h

/-- C2 witness: the amended theorem at the concrete scalar `"./a.yml"`. -/
theorem C2_taskfile_copied_unvalidated_witness :
    (∃ s, YamlNode.scalar "./a.yml" = YamlNode.scalar s ∧
      ({ Include.default with Taskfile := "./a.yml" } : Include).Taskfile = s) ∨
    (∃ content f, YamlNode.scalar "./a.yml" = YamlNode.mapping content ∧
      decodeIncludedTaskfile content = .ok f ∧
      ({ Include.default with Taskfile := "./a.yml" } : Include).Taskfile = f.Taskfile) :=
  C2_taskfile_copied_unvalidated Include.default (.scalar "./a.yml")
    { Include.default with Taskfile := "./a.yml" } rfl

/-- C3: decoding a plain string scalar `s` into a fresh Include record
succeeds with `Taskfile = s`, `AdvancedImport = false` and every other field
at its zero default. -/
theorem C3_scalar_form (s : String) :
    ∃ r, Include.UnmarshalYAML Include.default (.scalar s) = .ok r ∧
      r.Taskfile = s ∧ r.AdvancedImport = false ∧ r.Namespace = "" ∧ r.Dir = "" ∧
      r.Optional = false ∧ r.Internal = false ∧ r.Aliases = [] ∧ r.Vars = none ∧
      r.Flatten = false :=
  ⟨_, rfl, rfl, rfl, rfl, rfl, rfl, rfl, rfl, rfl, rfl⟩

/-- C8 counterexample: uninitialized and empty-initialized registries do not
behave exactly alike on `Get` — the uninitialized one returns a pointer to a
zero-value record, the empty initialized one returns a nil record pointer. -/
theorem C8_get_differs_on_empty :
    Includes.Get none "a" = (some Include.default, false) ∧
    Includes.Get (some ⟨none⟩) "a" = (some Include.default, false) ∧
    Includes.Get (some NewIncludes) "a" = (none, false) ∧
    (some Include.default, false) ≠ ((none : Option Include), false) :=
  ⟨rfl, rfl, rfl, by decide⟩

/-- C8 amended: on an uninitialized registry (nil pointer or nil internal
map) the reads never fail: `Len` is 0, `All` is empty and `Get` is not-found,
matching an empty initialized registry in all but the record part of `Get`,
which is a zero-value record instead of the empty registry's nil pointer. -/
theorem C8_uninitialized_reads (st : Option Includes) (k : String)
    (h : st = none ∨ st = some ⟨none⟩) :
    Includes.Len st = 0 ∧ Includes.All st = [] ∧
    Includes.Get st k = (some Include.default, false) ∧
    Includes.Len (some NewIncludes) = 0 ∧ Includes.All (some NewIncludes) = [] ∧
    Includes.Get (some NewIncludes) k = (none, false) := by
  rcases h with rfl | rfl <;> exact ⟨rfl, rfl, rfl, rfl, rfl, rfl⟩

/-- C8 witness: the amended theorem at the nil registry pointer and key "a". -/
theorem C8_uninitialized_reads_witness :
    Includes.Len none = 0 ∧ Includes.All none = [] ∧
    Includes.Get none "a" = (some Include.default, false) ∧
    Includes.Len (some NewIncludes) = 0 ∧ Includes.All (some NewIncludes) = [] ∧
    Includes.Get (some NewIncludes) "a" = (none, false) :=
  C8_uninitialized_reads none "a" (Or.inl rfl)

/-- C9 counterexample: `Set` on a nil registry pointer returns `true` without
failing, but the entry is not observable through that registry afterwards —
`Get` stays not-found and `Len` stays 0 — because the source only rebinds its
local copy of the receiver. -/
theorem C9_nil_pointer_set_lost :
    (Includes.Set none "a" exInclude1).1 = true ∧
    (Includes.Set none "a" exInclude1).2 = none ∧
    Includes.Get (Includes.Set none "a" exInclude1).2 "a" = (some Include.default, false) ∧
    Includes.Len (Includes.Set none "a" exInclude1).2 = 0 :=
  ⟨rfl, rfl, rfl, rfl⟩

/-- C9 amended: `Set` never fails; on a registry value whose internal map is
nil it lazily initializes the map and the entry becomes observable (`Get`
finds it, `Len` counts it), while on a nil registry pointer the entry is
silently lost. -/
theorem C9_lazy_init_set (k : String) (r : Include) :
    (Includes.Set (some ⟨none⟩) k r).1 = true ∧
    (Includes.Set (some ⟨none⟩) k r).2 = some ⟨some [(k, r)]⟩ ∧
    Includes.Get (Includes.Set (some ⟨none⟩) k r).2 k = (some r, true) ∧
    Includes.Len (Includes.Set (some ⟨none⟩) k r).2 = 1 ∧
    (Includes.Set none k r).1 = true ∧
    (Includes.Set none k r).2 = none := by
  refine ⟨rfl, rfl, ?_, rfl, rfl, rfl⟩
  refine Get_some_of_omGet [(k, r)] k r ?_
  unfold omGet
  rw [List.find?_cons_of_pos _ (by simp)]
  rfl

/-- C5: a decode of the registry fails with an error whose type message is
"includes" exactly when the node is not a mapping, and a decode of a single
record fails with an error whose type message is "include" exactly when the
node is neither a scalar nor a mapping; nested entry failures are wrapped
without a type message. -/
theorem C5_type_mismatch_iff (st : Option Includes) (inc : Include) (node : YamlNode) :
    ((∃ e, (Includes.UnmarshalYAML st node).1 = .error e ∧
        e.typeMessage = some "includes") ↔
      (∀ content, node ≠ .mapping content)) ∧
    ((∃ e, Include.UnmarshalYAML inc node = .error e ∧
        e.typeMessage = some "include") ↔
      ((∀ s, node ≠ .scalar s) ∧ (∀ content, node ≠ .mapping content))) := by
  constructor
  · constructor
    · rintro ⟨e, he, ht⟩ content hn
      subst hn
      rw [Includes_unmarshal_mapping] at he
      rw [decodeEntries_error_typeMessage content st e he] at ht
      exact Option.noConfusion ht
    · intro hn
      cases node with
      | scalar s => exact ⟨_, rfl, rfl⟩
      | mapping content => exact absurd rfl (hn content)
      | sequence items => exact ⟨_, rfl, rfl⟩
      | other => exact ⟨_, rfl, rfl⟩
  · constructor
    · rintro ⟨e, he, ht⟩
      cases node with
      | scalar s =>
        rw [Include_unmarshal_scalar] at he
        exact Except.noConfusion he
      | mapping content =>
        rw [Include_unmarshal_mapping] at he
        cases hd : decodeIncludedTaskfile content with
        | error e' =>
          rw [hd] at he
          injection he with he
          rw [← he] at ht
          exact Option.noConfusion ht
        | ok f =>
          rw [hd] at he
          exact Except.noConfusion he
      | sequence items =>
        exact ⟨fun s hs => YamlNode.noConfusion hs, fun c hc => YamlNode.noConfusion hc⟩
      | other =>
        exact ⟨fun s hs => YamlNode.noConfusion hs, fun c hc => YamlNode.noConfusion hc⟩
    · rintro ⟨hs, hm⟩
      cases node with
      | scalar s => exact absurd rfl (hs s)
      | mapping content => exact absurd rfl (hm content)
      | sequence items => exact ⟨_, rfl, rfl⟩
      | other => exact ⟨_, rfl, rfl⟩

/-- C5 witness: the characterisation at the concrete non-mapping node
`other`, a nil registry and a zero record. -/
theorem C5_type_mismatch_iff_witness :
    ((∃ e, (Includes.UnmarshalYAML none YamlNode.other).1 = .error e ∧
        e.typeMessage = some "includes") ↔
      (∀ content, YamlNode.other ≠ .mapping content)) ∧
    ((∃ e, Include.UnmarshalYAML Include.default YamlNode.other = .error e ∧
        e.typeMessage = some "include") ↔
      ((∀ s, YamlNode.other ≠ .scalar s) ∧ (∀ content, YamlNode.other ≠ .mapping content))) :=
  C5_type_mismatch_iff none Include.default .other

/-- C6 counterexample: the mapping `{a: "x", a: "y"}` has every entry decode
successfully, yet `Keys()` afterwards is `["a"]`, not the two-element source
key order `["a", "a"]` — the claim's "Keys() yields exactly the source key
order" fails for duplicate keys. -/
theorem C6_duplicate_keys_collapse :
    (Includes.UnmarshalYAML (some ⟨none⟩)
        (.mapping [("a", .scalar "x"), ("a", .scalar "y")])).1 = .ok () ∧
    Includes.Keys (Includes.UnmarshalYAML (some ⟨none⟩)
        (.mapping [("a", .scalar "x"), ("a", .scalar "y")])).2 Sorter.mk = ["a"] ∧
    [("a", YamlNode.scalar "x"), ("a", YamlNode.scalar "y")].map Prod.fst = ["a", "a"] ∧
    (["a"] : List String) ≠ ["a", "a"] :=
  ⟨rfl, rfl, rfl, by decide⟩

/-- C6 amended: for every mapping whose entries all decode successfully —
duplicate keys included — the registry decode yields `Keys()` equal to the
source keys in order of first occurrence, which is exactly the source key
order when the keys are distinct, and `Get(k)` finds a record with
`Namespace = k` for every source key `k`. -/
theorem C6_decode_order (content : List (String × YamlNode))
    (hok : (Includes.UnmarshalYAML (some ⟨none⟩) (.mapping content)).1 = .ok ()) :
    Includes.Keys (Includes.UnmarshalYAML (some ⟨none⟩) (.mapping content)).2 Sorter.mk =
      firstOccur (content.map Prod.fst) ∧
    ((content.map Prod.fst).Nodup →
      Includes.Keys (Includes.UnmarshalYAML (some ⟨none⟩) (.mapping content)).2 Sorter.mk =
        content.map Prod.fst) ∧
    ∀ k ∈ content.map Prod.fst,
      ∃ r, Includes.Get (Includes.UnmarshalYAML (some ⟨none⟩) (.mapping content)).2 k =
        (some r, true) ∧ r.Namespace = k := by
  rw [Includes_unmarshal_mapping] at hok ⊢
  cases content with
  | nil => exact ⟨rfl, fun _ => rfl, fun k hk => absurd hk (List.not_mem_nil k)⟩
  | cons kv rest =>
    obtain ⟨key, vn⟩ := kv
    rw [decodeEntries_cons] at hok ⊢
    cases hd : Include.UnmarshalYAML Include.default vn with
    | error e =>
      rw [hd] at hok
      exact absurd hok (fun hh => Except.noConfusion
        (show Except.error (α := Unit) (NewTaskfileDecodeError (some e)) = .ok () from hh))
    | ok v =>
      rw [hd] at hok
      obtain ⟨m', hm⟩ :=
        decodeEntries_ok_decodedMap rest [(key, { v with Namespace := key })] hok
      have hstate := decodeEntries_state_ok rest [(key, { v with Namespace := key })] m' hm
      have hkeysA : m'.map Prod.fst = firstOccur (key :: rest.map Prod.fst) := by
        rw [decodedMap_map_fst rest _ m' hm, firstOccur, List.foldl_cons]
        rw [show insertKey [] key = [key] from by
          rw [insertKey, if_neg (List.not_mem_nil key), List.nil_append]]
        rfl
      have hkeysB : (key :: rest.map Prod.fst).Nodup →
          m'.map Prod.fst = key :: rest.map Prod.fst := by
        intro hnodup
        rw [List.nodup_cons] at hnodup
        rw [decodedMap_map_fst rest _ m' hm]
        have hd' : ∀ x ∈ rest.map Prod.fst, x ∉ ([key] : List String) := by
          intro x hx hmem
          exact hnodup.1 ((List.mem_singleton.1 hmem) ▸ hx)
        show List.foldl insertKey [key] (rest.map Prod.fst) = key :: rest.map Prod.fst
        rw [foldl_insertKey_nodup (rest.map Prod.fst) [key] hnodup.2 hd']
        rfl
      show Includes.Keys
          (decodeEntries (some ⟨some [(key, { v with Namespace := key })]⟩) rest).2 Sorter.mk =
          firstOccur (((key, vn) :: rest).map Prod.fst) ∧
        ((((key, vn) :: rest).map Prod.fst).Nodup →
          Includes.Keys
            (decodeEntries (some ⟨some [(key, { v with Namespace := key })]⟩) rest).2
            Sorter.mk = ((key, vn) :: rest).map Prod.fst) ∧
        ∀ k ∈ ((key, vn) :: rest).map Prod.fst,
          ∃ r, Includes.Get
            (decodeEntries (some ⟨some [(key, { v with Namespace := key })]⟩) rest).2 k =
            (some r, true) ∧ r.Namespace = k
      rw [hstate]
      refine ⟨hkeysA, hkeysB, ?_⟩
      intro k hk
      have hk' : k ∈ m'.map Prod.fst := by
        rw [hkeysA, firstOccur]
        exact (foldl_insertKey_mem _ _ _).2 (Or.inr hk)
      obtain ⟨w, hw, hwmem⟩ := omGet_mem m' k hk'
      have hinv : ∀ p ∈ [(key, { v with Namespace := key })], p.2.Namespace = p.1 := by
        intro p hp
        rw [List.mem_singleton.1 hp]
      have hns := decodedMap_namespace rest _ m' hm hinv (k, w) hwmem
      exact ⟨w, Get_some_of_omGet m' k w hw, hns⟩

/-- C6 witness: the amended theorem at the spec's registry example, with the
distinct-keys implication discharged. -/
theorem C6_decode_order_witness :
    Includes.Keys (Includes.UnmarshalYAML (some ⟨none⟩) (.mapping exContent)).2 Sorter.mk =
      firstOccur (exContent.map Prod.fst) ∧
    Includes.Keys (Includes.UnmarshalYAML (some ⟨none⟩) (.mapping exContent)).2 Sorter.mk =
      exContent.map Prod.fst ∧
    ∀ k ∈ exContent.map Prod.fst,
      ∃ r, Includes.Get (Includes.UnmarshalYAML (some ⟨none⟩) (.mapping exContent)).2 k =
        (some r, true) ∧ r.Namespace = k :=
  ⟨(C6_decode_order exContent rfl).1,
   (C6_decode_order exContent rfl).2.1 (by decide),
   (C6_decode_order exContent rfl).2.2⟩

/-- C7: for any sequence of `Set` calls on an initialised registry, `Keys()`
lists the keys in first-insertion order; a further `Set` on a key that is
already present returns `false`, leaves the iteration order unchanged, and
makes `Get` return the new record (last write wins). -/
theorem C7_insertion_order (ops : List (String × Include)) (k : String) (v : Include) :
    Includes.Keys (applySets (some NewIncludes) ops) Sorter.mk =
      firstOccur (ops.map Prod.fst) ∧
    (k ∈ ops.map Prod.fst →
      (Includes.Set (applySets (some NewIncludes) ops) k v).1 = false ∧
      Includes.Keys (Includes.Set (applySets (some NewIncludes) ops) k v).2 Sorter.mk =
        Includes.Keys (applySets (some NewIncludes) ops) Sorter.mk ∧
      Includes.Get (Includes.Set (applySets (some NewIncludes) ops) k v).2 k =
        (some v, true)) := by
  have hA : applySets (some NewIncludes) ops = some ⟨some (omFold [] ops)⟩ :=
    applySets_eq ops []
  constructor
  · rw [hA]
    show (omFold [] ops).map Prod.fst = firstOccur (ops.map Prod.fst)
    rw [omFold_map_fst ops []]
    rfl
  · intro hk
    have hmem : k ∈ (omFold [] ops).map Prod.fst := by
      rw [omFold_map_fst ops []]
      exact (foldl_insertKey_mem _ _ _).2 (Or.inr hk)
    rw [hA]
    refine ⟨(omSet_of_mem _ _ _ hmem).1, ?_, ?_⟩
    · show (omSet (omFold [] ops) k v).2.map Prod.fst = (omFold [] ops).map Prod.fst
      rw [omSet_map_fst, insertKey, if_pos hmem]
    · show Includes.Get (some ⟨some (omSet (omFold [] ops) k v).2⟩) k = (some v, true)
      exact Get_some_of_omGet _ _ _ (omGet_omSet_self _ _ _)

/-- C7 witness: the ordering and replacement behaviour on the concrete
history `Set("a", ...); Set("b", ...); Set("a", ...)`. -/
theorem C7_insertion_order_witness :
    Includes.Keys (applySets (some NewIncludes) exOps) Sorter.mk =
      firstOccur (exOps.map Prod.fst) ∧
    ((Includes.Set (applySets (some NewIncludes) exOps) "a" exInclude3).1 = false ∧
      Includes.Keys (Includes.Set (applySets (some NewIncludes) exOps) "a" exInclude3).2
        Sorter.mk = Includes.Keys (applySets (some NewIncludes) exOps) Sorter.mk ∧
      Includes.Get (Includes.Set (applySets (some NewIncludes) exOps) "a" exInclude3).2 "a" =
        (some exInclude3, true)) :=
  ⟨(C7_insertion_order exOps "a" exInclude3).1,
   (C7_insertion_order exOps "a" exInclude3).2 (by decide)⟩

/-- C10: registry decode is not atomic — when the value at some position
fails to decode, the call returns a decode error wrapping the cause, but the
successfully decoded earlier entries have already been inserted: the registry
state equals the state after decoding just the good prefix, and each prefix
key is still found by `Get`. -/
theorem C10_partial_population (good : List (String × YamlNode)) (badKey : String)
    (badNode : YamlNode) (rest : List (String × YamlNode)) (e : TaskfileDecodeError)
    (hgood : ∀ kv ∈ good, ∃ r, Include.UnmarshalYAML Include.default kv.2 = .ok r)
    (hbad : Include.UnmarshalYAML Include.default badNode = .error e) :
    (Includes.UnmarshalYAML (some ⟨none⟩)
        (.mapping (good ++ (badKey, badNode) :: rest))).1 =
      .error (NewTaskfileDecodeError (some e)) ∧
    (Includes.UnmarshalYAML (some ⟨none⟩)
        (.mapping (good ++ (badKey, badNode) :: rest))).2 =
      (Includes.UnmarshalYAML (some ⟨none⟩) (.mapping good)).2 ∧
    ∀ kv ∈ good,
      ∃ r, Includes.Get
        (Includes.UnmarshalYAML (some ⟨none⟩)
          (.mapping (good ++ (badKey, badNode) :: rest))).2 kv.1 = (some r, true) := by
  simp only [Includes_unmarshal_mapping]
  cases good with
  | nil =>
    rw [List.nil_append, decodeEntries_cons, hbad]
    exact ⟨rfl, rfl, fun kv hkv => absurd hkv (List.not_mem_nil kv)⟩
  | cons kv0 tail =>
    obtain ⟨key, vn⟩ := kv0
    rcases hgood (key, vn) (List.mem_cons_self _ _) with ⟨v, hv⟩
    rw [List.cons_append,
      decodeEntries_cons (some ⟨none⟩) key vn (tail ++ (badKey, badNode) :: rest),
      decodeEntries_cons (some ⟨none⟩) key vn tail, hv]
    obtain ⟨m', hm⟩ := decodedMap_total tail [(key, { v with Namespace := key })]
      (fun kv hkv => hgood kv (List.mem_cons_of_mem _ hkv))
    have happ := decodeEntries_append_ok tail [(key, { v with Namespace := key })] m'
      ((badKey, badNode) :: rest) hm
    have hstate := decodeEntries_state_ok tail [(key, { v with Namespace := key })] m' hm
    show (decodeEntries (some ⟨some [(key, { v with Namespace := key })]⟩)
          (tail ++ (badKey, badNode) :: rest)).1 = .error (NewTaskfileDecodeError (some e)) ∧
      (decodeEntries (some ⟨some [(key, { v with Namespace := key })]⟩)
          (tail ++ (badKey, badNode) :: rest)).2 =
        (decodeEntries (some ⟨some [(key, { v with Namespace := key })]⟩) tail).2 ∧
      ∀ kv ∈ (key, vn) :: tail,
        ∃ r, Includes.Get (decodeEntries (some ⟨some [(key, { v with Namespace := key })]⟩)
            (tail ++ (badKey, badNode) :: rest)).2 kv.1 = (some r, true)
    rw [happ, decodeEntries_cons, hbad, hstate]
    refine ⟨rfl, rfl, ?_⟩
    intro kv hkv
    have hkeys := decodedMap_map_fst tail _ m' hm
    have hk : kv.1 ∈ m'.map Prod.fst := by
      rw [hkeys]
      refine (foldl_insertKey_mem _ _ _).2 ?_
      rcases List.mem_cons.1 hkv with h1 | h1
      · left
        simp [h1]
      · right
        exact List.mem_map.2 ⟨kv, h1, rfl⟩
    obtain ⟨w, hw, _⟩ := omGet_mem m' kv.1 hk
    exact ⟨w, Get_some_of_omGet m' kv.1 w hw⟩

/-- C10 witness: the good prefix `{a: "./a.yml"}` followed by the undecodable
entry `b`; the error wraps the record decoder's "include" type mismatch and
`a` remains observable. -/
theorem C10_partial_population_witness :
    (Includes.UnmarshalYAML (some ⟨none⟩)
        (.mapping (exGood ++ ("b", YamlNode.other) :: []))).1 =
      .error (NewTaskfileDecodeError
        (some ((NewTaskfileDecodeError none).WithTypeMessage "include"))) ∧
    (Includes.UnmarshalYAML (some ⟨none⟩)
        (.mapping (exGood ++ ("b", YamlNode.other) :: []))).2 =
      (Includes.UnmarshalYAML (some ⟨none⟩) (.mapping exGood)).2 ∧
    ∀ kv ∈ exGood,
      ∃ r, Includes.Get
        (Includes.UnmarshalYAML (some ⟨none⟩)
          (.mapping (exGood ++ ("b", YamlNode.other) :: []))).2 kv.1 = (some r, true) :=
  C10_partial_population exGood "b" .other []
    ((NewTaskfileDecodeError none).WithTypeMessage "include")
    (by
      intro kv hkv
      rw [List.mem_singleton.1 hkv]
      exact ⟨_, rfl⟩)
    rfl

/-- C4: decoding a mapping node (whose anonymous struct decodes to `f`) into
a fresh Include record copies every recognised field from `f`, sets
`AdvancedImport = true` unconditionally, leaves `Namespace` untouched, leaves
each absent field at its zero default, and gives each present field the
decoded value of its last occurrence. -/
theorem C4_mapping_form (content : List (String × YamlNode)) (f : IncludedTaskfileFields)
    (h : decodeIncludedTaskfile content = .ok f) :
    ∃ r, Include.UnmarshalYAML Include.default (.mapping content) = .ok r ∧
      r.AdvancedImport = true ∧ r.Namespace = "" ∧
      r.Taskfile = f.Taskfile ∧ r.Dir = f.Dir ∧ r.Optional = f.Optional ∧
      r.Internal = f.Internal ∧ r.Flatten = f.Flatten ∧ r.Aliases = f.Aliases ∧
      r.Vars = f.Vars ∧
      ("taskfile" ∉ content.map Prod.fst → r.Taskfile = "") ∧
      ("dir" ∉ content.map Prod.fst → r.Dir = "") ∧
      ("optional" ∉ content.map Prod.fst → r.Optional = false) ∧
      ("internal" ∉ content.map Prod.fst → r.Internal = false) ∧
      ("flatten" ∉ content.map Prod.fst → r.Flatten = false) ∧
      ("aliases" ∉ content.map Prod.fst → r.Aliases = []) ∧
      ("vars" ∉ content.map Prod.fst → r.Vars = none) ∧
      (∀ pre n post, content = pre ++ ("taskfile", n) :: post →
        "taskfile" ∉ post.map Prod.fst → ∃ s, decodeString n = .ok s ∧ r.Taskfile = s) ∧
      (∀ pre n post, content = pre ++ ("dir", n) :: post →
        "dir" ∉ post.map Prod.fst → ∃ s, decodeString n = .ok s ∧ r.Dir = s) ∧
      (∀ pre n post, content = pre ++ ("optional", n) :: post →
        "optional" ∉ post.map Prod.fst → ∃ b, decodeBool n = .ok b ∧ r.Optional = b) ∧
      (∀ pre n post, content = pre ++ ("internal", n) :: post →
        "internal" ∉ post.map Prod.fst → ∃ b, decodeBool n = .ok b ∧ r.Internal = b) ∧
      (∀ pre n post, content = pre ++ ("flatten", n) :: post →
        "flatten" ∉ post.map Prod.fst → ∃ b, decodeBool n = .ok b ∧ r.Flatten = b) ∧
      (∀ pre n post, content = pre ++ ("aliases", n) :: post →
        "aliases" ∉ post.map Prod.fst → ∃ l, decodeStringList n = .ok l ∧ r.Aliases = l) ∧
      (∀ pre n post, content = pre ++ ("vars", n) :: post →
        "vars" ∉ post.map Prod.fst → ∃ v, decodeVars n = .ok v ∧ r.Vars = some v) := by
  have hfold : content.foldlM (fun f kv => setField f kv.1 kv.2) {} = .ok f := h
  have hT : ∀ g k n g', setField g k n = .ok g' → k ≠ "taskfile" → g'.Taskfile = g.Taskfile :=
    fun g k n g' hs hk => (setField_ne g k n g' hs).1 hk
  have hD : ∀ g k n g', setField g k n = .ok g' → k ≠ "dir" → g'.Dir = g.Dir :=
    fun g k n g' hs hk => (setField_ne g k n g' hs).2.1 hk
  have hO : ∀ g k n g', setField g k n = .ok g' → k ≠ "optional" → g'.Optional = g.Optional :=
    fun g k n g' hs hk => (setField_ne g k n g' hs).2.2.1 hk
  have hI : ∀ g k n g', setField g k n = .ok g' → k ≠ "internal" → g'.Internal = g.Internal :=
    fun g k n g' hs hk => (setField_ne g k n g' hs).2.2.2.1 hk
  have hF : ∀ g k n g', setField g k n = .ok g' → k ≠ "flatten" → g'.Flatten = g.Flatten :=
    fun g k n g' hs hk => (setField_ne g k n g' hs).2.2.2.2.1 hk
  have hAl : ∀ g k n g', setField g k n = .ok g' → k ≠ "aliases" → g'.Aliases = g.Aliases :=
    fun g k n g' hs hk => (setField_ne g k n g' hs).2.2.2.2.2.1 hk
  have hV : ∀ g k n g', setField g k n = .ok g' → k ≠ "vars" → g'.Vars = g.Vars :=
    fun g k n g' hs hk => (setField_ne g k n g' hs).2.2.2.2.2.2 hk
  refine ⟨{ Include.default with
      Taskfile := f.Taskfile
      Dir := f.Dir
      Optional := f.Optional
      Internal := f.Internal
      Aliases := f.Aliases
      AdvancedImport := true
      Vars := f.Vars
      Flatten := f.Flatten },
    by rw [Include_unmarshal_mapping, h],
    rfl, rfl, rfl, rfl, rfl, rfl, rfl, rfl, rfl,
    ?_, ?_, ?_, ?_, ?_, ?_, ?_, ?_, ?_, ?_, ?_, ?_, ?_, ?_⟩
  · intro hk
    exact decodeFold_preserve IncludedTaskfileFields.Taskfile "taskfile" hT content {} f hfold hk
  · intro hk
    exact decodeFold_preserve IncludedTaskfileFields.Dir "dir" hD content {} f hfold hk
  · intro hk
    exact decodeFold_preserve IncludedTaskfileFields.Optional "optional" hO content {} f hfold hk
  · intro hk
    exact decodeFold_preserve IncludedTaskfileFields.Internal "internal" hI content {} f hfold hk
  · intro hk
    exact decodeFold_preserve IncludedTaskfileFields.Flatten "flatten" hF content {} f hfold hk
  · intro hk
    exact decodeFold_preserve IncludedTaskfileFields.Aliases "aliases" hAl content {} f hfold hk
  · intro hk
    exact decodeFold_preserve IncludedTaskfileFields.Vars "vars" hV content {} f hfold hk
  · intro pre n post hc hpost
    subst hc
    rcases decodeFold_last IncludedTaskfileFields.Taskfile "taskfile" hT pre post n {} f
      hfold hpost with ⟨g, g', hg, hset, hproj⟩
    rcases setField_taskfile g n g' hset with ⟨s, hs, rfl⟩
    exact ⟨s, hs, by rw [show ({ Include.default with
      Taskfile := f.Taskfile, Dir := f.Dir, Optional := f.Optional, Internal := f.Internal,
      Aliases := f.Aliases, AdvancedImport := true, Vars := f.Vars,
      Flatten := f.Flatten } : Include).Taskfile = f.Taskfile from rfl, hproj]⟩
  · intro pre n post hc hpost
    subst hc
    rcases decodeFold_last IncludedTaskfileFields.Dir "dir" hD pre post n {} f
      hfold hpost with ⟨g, g', hg, hset, hproj⟩
    rcases setField_dir g n g' hset with ⟨s, hs, rfl⟩
    exact ⟨s, hs, by rw [show ({ Include.default with
      Taskfile := f.Taskfile, Dir := f.Dir, Optional := f.Optional, Internal := f.Internal,
      Aliases := f.Aliases, AdvancedImport := true, Vars := f.Vars,
      Flatten := f.Flatten } : Include).Dir = f.Dir from rfl, hproj]⟩
  · intro pre n post hc hpost
    subst hc
    rcases decodeFold_last IncludedTaskfileFields.Optional "optional" hO pre post n {} f
      hfold hpost with ⟨g, g', hg, hset, hproj⟩
    rcases setField_optional g n g' hset with ⟨b, hb, rfl⟩
    exact ⟨b, hb, by rw [show ({ Include.default with
      Taskfile := f.Taskfile, Dir := f.Dir, Optional := f.Optional, Internal := f.Internal,
      Aliases := f.Aliases, AdvancedImport := true, Vars := f.Vars,
      Flatten := f.Flatten } : Include).Optional = f.Optional from rfl, hproj]⟩
  · intro pre n post hc hpost
    subst hc
    rcases decodeFold_last IncludedTaskfileFields.Internal "internal" hI pre post n {} f
      hfold hpost with ⟨g, g', hg, hset, hproj⟩
    rcases setField_internal g n g' hset with ⟨b, hb, rfl⟩
    exact ⟨b, hb, by rw [show ({ Include.default with
      Taskfile := f.Taskfile, Dir := f.Dir, Optional := f.Optional, Internal := f.Internal,
      Aliases := f.Aliases, AdvancedImport := true, Vars := f.Vars,
      Flatten := f.Flatten } : Include).Internal = f.Internal from rfl, hproj]⟩
  · intro pre n post hc hpost
    subst hc
    rcases decodeFold_last IncludedTaskfileFields.Flatten "flatten" hF pre post n {} f
      hfold hpost with ⟨g, g', hg, hset, hproj⟩
    rcases setField_flatten g n g' hset with ⟨b, hb, rfl⟩
    exact ⟨b, hb, by rw [show ({ Include.default with
      Taskfile := f.Taskfile, Dir := f.Dir, Optional := f.Optional, Internal := f.Internal,
      Aliases := f.Aliases, AdvancedImport := true, Vars := f.Vars,
      Flatten := f.Flatten } : Include).Flatten = f.Flatten from rfl, hproj]⟩
  · intro pre n post hc hpost
    subst hc
    rcases decodeFold_last IncludedTaskfileFields.Aliases "aliases" hAl pre post n {} f
      hfold hpost with ⟨g, g', hg, hset, hproj⟩
    rcases setField_aliases g n g' hset with ⟨l, hl, rfl⟩
    exact ⟨l, hl, by rw [show ({ Include.default with
      Taskfile := f.Taskfile, Dir := f.Dir, Optional := f.Optional, Internal := f.Internal,
      Aliases := f.Aliases, AdvancedImport := true, Vars := f.Vars,
      Flatten := f.Flatten } : Include).Aliases = f.Aliases from rfl, hproj]⟩
  · intro pre n post hc hpost
    subst hc
    rcases decodeFold_last IncludedTaskfileFields.Vars "vars" hV pre post n {} f
      hfold hpost with ⟨g, g', hg, hset, hproj⟩
    rcases setField_vars g n g' hset with ⟨v, hv, rfl⟩
    exact ⟨v, hv, by rw [show ({ Include.default with
      Taskfile := f.Taskfile, Dir := f.Dir, Optional := f.Optional, Internal := f.Internal,
      Aliases := f.Aliases, AdvancedImport := true, Vars := f.Vars,
      Flatten := f.Flatten } : Include).Vars = f.Vars from rfl, hproj]⟩

/-- C4 witness: the mapping-form theorem at the concrete mapping
`{taskfile: "./b.yml", internal: true}`. -/
theorem C4_mapping_form_witness :
    ∃ r, Include.UnmarshalYAML Include.default (.mapping exContent2) = .ok r ∧
      r.AdvancedImport = true ∧ r.Namespace = "" ∧
      r.Taskfile = exFields2.Taskfile ∧ r.Dir = exFields2.Dir ∧
      r.Optional = exFields2.Optional ∧ r.Internal = exFields2.Internal ∧
      r.Flatten = exFields2.Flatten ∧ r.Aliases = exFields2.Aliases ∧
      r.Vars = exFields2.Vars ∧
      ("taskfile" ∉ exContent2.map Prod.fst → r.Taskfile = "") ∧
      ("dir" ∉ exContent2.map Prod.fst → r.Dir = "") ∧
      ("optional" ∉ exContent2.map Prod.fst → r.Optional = false) ∧
      ("internal" ∉ exContent2.map Prod.fst → r.Internal = false) ∧
      ("flatten" ∉ exContent2.map Prod.fst → r.Flatten = false) ∧
      ("aliases" ∉ exContent2.map Prod.fst → r.Aliases = []) ∧
      ("vars" ∉ exContent2.map Prod.fst → r.Vars = none) ∧
      (∀ pre n post, exContent2 = pre ++ ("taskfile", n) :: post →
        "taskfile" ∉ post.map Prod.fst → ∃ s, decodeString n = .ok s ∧ r.Taskfile = s) ∧
      (∀ pre n post, exContent2 = pre ++ ("dir", n) :: post →
        "dir" ∉ post.map Prod.fst → ∃ s, decodeString n = .ok s ∧ r.Dir = s) ∧
      (∀ pre n post, exContent2 = pre ++ ("optional", n) :: post →
        "optional" ∉ post.map Prod.fst → ∃ b, decodeBool n = .ok b ∧ r.Optional = b) ∧
      (∀ pre n post, exContent2 = pre ++ ("internal", n) :: post →
        "internal" ∉ post.map Prod.fst → ∃ b, decodeBool n = .ok b ∧ r.Internal = b) ∧
      (∀ pre n post, exContent2 = pre ++ ("flatten", n) :: post →
        "flatten" ∉ post.map Prod.fst → ∃ b, decodeBool n = .ok b ∧ r.Flatten = b) ∧
      (∀ pre n post, exContent2 = pre ++ ("aliases", n) :: post →
        "aliases" ∉ post.map Prod.fst → ∃ l, decodeStringList n = .ok l ∧ r.Aliases = l) ∧
      (∀ pre n post, exContent2 = pre ++ ("vars", n) :: post →
        "vars" ∉ post.map Prod.fst → ∃ v, decodeVars n = .ok v ∧ r.Vars = some v) :=
  C4_mapping_form exContent2 exFields2 rfl

end TaskAst
